import Mathlib

/-!
Verification development for the waybeam-pwm control bridge
(`src/files/waybeam-pwm.c`): a UDP-to-PWM bridge that reassembles a CRSF
byte stream, parses CRC-validated frames, unpacks 16 packed 11-bit RC
channels, and drives two PWM outputs behind a failsafe state machine.

Bytes are modelled as `Nat` (values < 256 where it matters), buffers as
`List Nat`, C `int` arithmetic as `Int` with `Int.tdiv` for C's truncating
division, and the `uint64 -> int` narrowing cast explicitly.
-/

namespace Waybeam

/-! ## CRC-8 (crsf_crc8, waybeam-pwm.c lines 299-308) -/

/-- One iteration of the inner `for (b = 0; b < 8; b++)` loop of `crsf_crc8`:
`crc = (crc & 0x80) ? (uint8_t)((crc << 1) ^ 0xD5) : (uint8_t)(crc << 1)`. -/
def crc8_shift (crc : Nat) : Nat :=
  if crc &&& 0x80 ≠ 0 then ((crc <<< 1) ^^^ 0xD5) % 256 else (crc <<< 1) % 256

/-- Eight shift iterations applied after xoring one input byte in. -/
def crc8_byte (crc : Nat) : Nat :=
  crc8_shift^[8] crc

/-- `crsf_crc8`: fold `crc ^= buf[i]` followed by eight shift steps over the
input bytes, initial value 0 (polynomial 0xD5, MSB first, no reflection,
no final xor). -/
def crsf_crc8 (buf : List Nat) : Nat :=
  buf.foldl (fun crc b => crc8_byte (crc ^^^ b)) 0

/-! ## Channel decoding (crsf_ticks_to_us / crsf_unpack_rc16_11bit,
lines 310-330) -/

/-- `crsf_ticks_to_us`: `((ticks - 992) * 5) / 8 + 1500` in C `int`
arithmetic; C division truncates toward zero, hence `Int.tdiv`. -/
def crsf_ticks_to_us (ticks : Int) : Int :=
  Int.tdiv ((ticks - 992) * 5) 8 + 1500

/-- The per-channel body of the loop in `crsf_unpack_rc16_11bit`
(lines 318-326): assemble up to 3 consecutive payload bytes into `w`
(little-endian), then extract the 11-bit field at bit offset `ch * 11`. -/
def crsf_unpack_ticks (payload : List Nat) (ch : Nat) : Nat :=
  let bitpos := ch * 11
  let bytepos := bitpos >>> 3
  let shift := bitpos &&& 7
  let w0 := payload.getD bytepos 0
  let w1 := if bytepos + 1 < payload.length then w0 ||| (payload.getD (bytepos + 1) 0) <<< 8 else w0
  let w2 := if bytepos + 2 < payload.length then w1 ||| (payload.getD (bytepos + 2) 0) <<< 16 else w1
  (w2 >>> shift) &&& 0x7FF

/-- `crsf_unpack_rc16_11bit`: fails (returns `false` in C) when fewer than
22 payload bytes are supplied, otherwise fills the 16 output microsecond
values `out_us[ch] = crsf_ticks_to_us(ticks_ch)`. -/
def crsf_unpack_rc16_11bit (payload : List Nat) : Option (List Int) :=
  if payload.length < 22 then none
  else some ((List.range 16).map fun ch => crsf_ticks_to_us (crsf_unpack_ticks payload ch))

/-- Modelled from the spec (§4.3 / §8, no packer exists in the source): the
22-byte packing layout in which channel `c` occupies the 11 bits at bit
offset `c * 11`, little-endian bit ordering within and across bytes.  The
16 tick values form the base-2048 number `Nat.ofDigits 2048 t`, and byte
`j` of the payload is byte `j` of that 176-bit number. -/
def rc_pack (t : List Nat) : List Nat :=
  (List.range 22).map fun j => Nat.ofDigits 2048 t / 2 ^ (8 * j) % 256

/-! ## Stream reassembly (crsf_stream_feed, lines 343-356) -/

/-- `RXBUF_SIZE`: capacity of the reassembly buffer. -/
def RXBUF_SIZE : Nat := 4096

/-- `crsf_stream_feed`: append `data` to the buffer; a single append larger
than the capacity keeps only its trailing `RXBUF_SIZE` bytes
(`data += n - RXBUF_SIZE`), and an overflowing append drops the oldest
buffered bytes (`memmove` down by `drop`). -/
def crsf_stream_feed (sb data : List Nat) : List Nat :=
  if data.length = 0 then sb
  else
    let d := if data.length > RXBUF_SIZE then data.drop (data.length - RXBUF_SIZE) else data
    let sb2 := if sb.length + d.length > RXBUF_SIZE then
        sb.drop (sb.length + d.length - RXBUF_SIZE)
      else sb
    sb2 ++ d

/-! ## Frame parsing (crsf_stream_parse, lines 358-415)

The C scan walks a cursor `i` over `sb->data`, never looking at indices
below `i`, and finally discards everything before the final cursor with one
`memmove`.  `parseLoop` embeds the cursor loop literally (absolute indices
into the unchanged buffer); `crsf_stream_parse` packages the emitted
CRC-valid frames together with the residual buffer. -/

/-- The `while (sb->len - i >= 4)` loop of `crsf_stream_parse`, with the
cursor `i` kept explicit.  Returns the CRC-valid frames emitted (in order)
and the final cursor value. -/
def parseLoop (data : List Nat) (i : Nat) : List (List Nat) × Nat :=
  if h4 : 4 ≤ data.length - i then
    if data.getD i 0 ≠ 0xC8 then parseLoop data (i + 1)
    else if data.getD (i + 1) 0 < 2 ∨ 62 < data.getD (i + 1) 0 then parseLoop data (i + 1)
    else if data.length - i < data.getD (i + 1) 0 + 2 then ([], i)
    else if crsf_crc8 ((data.drop (i + 2)).take (data.getD (i + 1) 0 - 1))
        ≠ data.getD (i + (data.getD (i + 1) 0 + 2) - 1) 0 then
      parseLoop data (i + 1)
    else
      ((data.drop i).take (data.getD (i + 1) 0 + 2)
          :: (parseLoop data (i + (data.getD (i + 1) 0 + 2))).1,
        (parseLoop data (i + (data.getD (i + 1) 0 + 2))).2)
  else ([], i)
termination_by data.length - i
decreasing_by all_goals omega

/-- `crsf_stream_parse` on a buffer: the frames found by the cursor loop and
the residual buffer left after the final `memmove` (everything from the
final cursor on). -/
def crsf_stream_parse (sb : List Nat) : List (List Nat) × List Nat :=
  let r := parseLoop sb 0
  (r.1, sb.drop r.2)

/-- The frame-decoder scan exactly as claim C2 words it (spec §4.2 steps
1-6 with no address filtering): read the length byte, skip one byte on an
out-of-range length, stop on an incomplete frame, check CRC-8 over type and
payload, skip one byte on mismatch, emit and consume `length + 2` bytes on
match. -/
def specScanNoAddr (buf : List Nat) : List (List Nat) × List Nat :=
  if 4 ≤ buf.length then
    if buf.getD 1 0 < 2 ∨ 62 < buf.getD 1 0 then specScanNoAddr (buf.drop 1)
    else if buf.length < buf.getD 1 0 + 2 then ([], buf)
    else if crsf_crc8 ((buf.drop 2).take (buf.getD 1 0 - 1)) ≠ buf.getD (buf.getD 1 0 + 1) 0 then
      specScanNoAddr (buf.drop 1)
    else
      (buf.take (buf.getD 1 0 + 2) :: (specScanNoAddr (buf.drop (buf.getD 1 0 + 2))).1,
        (specScanNoAddr (buf.drop (buf.getD 1 0 + 2))).2)
  else ([], buf)
termination_by buf.length
decreasing_by all_goals simp [List.length_drop]; omega

/-- The frame-decoder scan of claim C2 amended with the address filter the
code applies first: a candidate whose address byte is not `0xC8`
(`CRSF_ADDR_FLIGHT_CONTROLLER`) is treated as noise and the cursor advances
by exactly one byte. -/
def specScanAddr (buf : List Nat) : List (List Nat) × List Nat :=
  if 4 ≤ buf.length then
    if buf.getD 0 0 ≠ 0xC8 then specScanAddr (buf.drop 1)
    else if buf.getD 1 0 < 2 ∨ 62 < buf.getD 1 0 then specScanAddr (buf.drop 1)
    else if buf.length < buf.getD 1 0 + 2 then ([], buf)
    else if crsf_crc8 ((buf.drop 2).take (buf.getD 1 0 - 1)) ≠ buf.getD (buf.getD 1 0 + 1) 0 then
      specScanAddr (buf.drop 1)
    else
      (buf.take (buf.getD 1 0 + 2) :: (specScanAddr (buf.drop (buf.getD 1 0 + 2))).1,
        (specScanAddr (buf.drop (buf.getD 1 0 + 2))).2)
  else ([], buf)
termination_by buf.length
decreasing_by all_goals simp [List.length_drop]; omega

/-! ## RC-frame extraction (lines 396-406) -/

/-- The fields of `crsf_parse_result_t` consumed by the session loop. -/
structure crsf_parse_result where
  got_rc : Bool
  ch_us : List Int
deriving DecidableEq

/-- The action lines 396-406 of `crsf_stream_parse` perform for one
CRC-valid frame: an RC-channels frame (`type == 0x16`) whose payload length
is exactly 22 updates `ch_us` and sets `got_rc`; everything else leaves the
result untouched. -/
def crsf_apply_frame (res : crsf_parse_result) (frame : List Nat) : crsf_parse_result :=
  let flen := frame.getD 1 0
  let ftype := frame.getD 2 0
  let payload := (frame.drop 3).take (flen - 2)
  if ftype = 0x16 then
    if flen - 2 = 22 then
      match crsf_unpack_rc16_11bit payload with
      | some us => { got_rc := true, ch_us := us }
      | none => res
    else res
  else res

/-- Parse a buffer and fold the RC-frame action over the CRC-valid frames in
order (the `res` record is zeroed before each parse, line 629). -/
def crsf_parse_rc (sb : List Nat) : crsf_parse_result :=
  ((crsf_stream_parse sb).1).foldl crsf_apply_frame ⟨false, List.replicate 16 0⟩

/-! ## PWM output channel (pwm_set_us, lines 264-288) -/

/-- The mutable per-output state of `pwm_out_t` that `pwm_set_us` reads and
writes. -/
structure pwm_out where
  last_us : Int
  available : Bool
deriving DecidableEq

/-- `pwm_set_us`: skip when unavailable, clamp into `[min_us, max_us]`,
skip the hardware write when the clamped value equals `last_us`, otherwise
attempt the write (`write_ok` says whether `write_int_path` succeeds) and
update `last_us` only on success.  Returns the new state and the value
passed to the hardware write, `none` when no write was attempted. -/
def pwm_set_us (min_us max_us : Int) (o : pwm_out) (us : Int) (write_ok : Bool) :
    pwm_out × Option Int :=
  if o.available = false then (o, none)
  else
    let us1 := if us < min_us then min_us else us
    let us2 := if max_us < us1 then max_us else us1
    if o.last_us = us2 then (o, none)
    else if write_ok then ({ o with last_us := us2 }, some us2)
    else (o, some us2)

/-! ## PWM channel initialization (pwm_init_one, lines 198-262, and its use
in main, lines 552-555) -/

/-- Outcomes of the filesystem/driver interactions `pwm_init_one` performs,
one flag per fallible step. -/
structure pwm_env where
  path_exists_before : Bool
  export_write_ok : Bool
  path_exists_after : Bool
  duty_us_path_exists : Bool
  disable_write_ok : Bool
  period_write_ok : Bool
  duty_center_write_ok : Bool
  enable_write_ok : Bool
deriving DecidableEq

/-- The device operations of the init sequence, in the order the claim
lists them. -/
inductive pwm_step where
  | ensure_exported
  | disable
  | set_period
  | set_duty_center
  | enable
deriving DecidableEq

/-- `export_pwm_if_needed` (lines 171-176): succeeds immediately when the
`pwm%d` path already exists, otherwise returns the result of writing the
`export` file. -/
def export_pwm_if_needed (env : pwm_env) : Bool :=
  if env.path_exists_before then true else env.export_write_ok

/-- `pwm_init_one` (mux writes aside, which are best-effort and never
fatal): ensure the channel is exported and `duty_us` is present, then
disable (result explicitly discarded by the C code), set period, set duty
to center, enable.  Returns whether init succeeded (`0` in C) and the trace
of device operations attempted, in order. -/
def pwm_init_one (env : pwm_env) : Bool × List pwm_step :=
  if export_pwm_if_needed env = false ∧ env.path_exists_after = false then
    (false, [.ensure_exported])
  else if env.duty_us_path_exists = false then
    (false, [.ensure_exported])
  else if env.period_write_ok = false then
    (false, [.ensure_exported, .disable, .set_period])
  else if env.duty_center_write_ok = false then
    (false, [.ensure_exported, .disable, .set_period, .set_duty_center])
  else if env.enable_write_ok = false then
    (false, [.ensure_exported, .disable, .set_period, .set_duty_center, .enable])
  else
    (true, [.ensure_exported, .disable, .set_period, .set_duty_center, .enable])

/-- Lines 552-555 of `main`: initialize each configured channel;
`return 1` (modelled as `none`) as soon as one fails, before the socket is
opened and the serving loop entered. -/
def main_init_pwms (pwm0_ch pwm1_ch : Int) (env0 env1 : pwm_env) : Option (Bool × Bool) :=
  if 0 < pwm0_ch ∧ (pwm_init_one env0).1 = false then none
  else if 0 < pwm1_ch ∧ (pwm_init_one env1).1 = false then none
  else some (0 < pwm0_ch, 0 < pwm1_ch)

/-! ## Failsafe state machine (main loop, lines 597-702) -/

/-- The C cast `(int)age` applied to a `uint64_t`: truncate to 32 bits and
reinterpret in two's complement (gcc behavior on the target). -/
def c_int_of_u64 (n : Nat) : Int :=
  let m : Nat := n % 2 ^ 32
  if m < 2 ^ 31 then (m : Int) else (m : Int) - 2 ^ 32

/-- The link-state variables of the session loop (lines 599-601). -/
structure loop_state where
  last_valid_ms : Nat
  link_active : Bool
  centered_due_to_timeout : Bool
deriving DecidableEq

/-- The failsafe block run at the end of every tick (lines 686-701):
when the link is active and `(int)age >= center_timeout_ms`, center once
(guarded by `centered_due_to_timeout`); ages in `[hold_ms,
center_timeout_ms)` are an intentional no-op.  Returns the new state and
whether a center command was issued this tick. -/
def failsafe_check (center_timeout_ms hold_ms : Int) (st : loop_state) (now : Nat) :
    loop_state × Bool :=
  if st.link_active then
    let age := (2 ^ 64 + now - st.last_valid_ms) % 2 ^ 64
    if center_timeout_ms ≤ c_int_of_u64 age then
      if st.centered_due_to_timeout = false then
        ({ st with centered_due_to_timeout := true }, true)
      else (st, false)
    else if hold_ms ≤ c_int_of_u64 age then
      (st, false)
    else (st, false)
  else (st, false)

/-- Lines 639-641: on a tick that decoded at least one valid RC frame,
refresh the timestamp and re-enter the active state before values are
passed through to the outputs. -/
def rc_update (now : Nat) : loop_state :=
  { last_valid_ms := now, link_active := true, centered_due_to_timeout := false }

/-- One tick of the session loop, reduced to its failsafe-relevant events:
`got_rc` says whether this tick decoded a valid RC frame (in which case the
frame's values pass through to the actuators).  Returns the new state,
whether values passed through, and whether a center command fired. -/
def loop_tick (center_timeout_ms hold_ms : Int) (st : loop_state) (now : Nat) (got_rc : Bool) :
    loop_state × Bool × Bool :=
  let st1 := if got_rc then rc_update now else st
  let r := failsafe_check center_timeout_ms hold_ms st1 now
  (r.1, got_rc, r.2)

/-- A run of ticks: fold `loop_tick` over a list of `(now, got_rc)` events,
counting the center commands issued. -/
def run_ticks (center_timeout_ms hold_ms : Int) (st : loop_state)
    (evts : List (Nat × Bool)) : loop_state × Nat :=
  evts.foldl
    (fun acc e =>
      ((loop_tick center_timeout_ms hold_ms acc.1 e.1 e.2).1,
        acc.2 + if (loop_tick center_timeout_ms hold_ms acc.1 e.1 e.2).2.2 then 1 else 0))
    (st, 0)

/-- The socket receive-error branch (lines 671-680): center the outputs
only when not already centered, then unconditionally deactivate the link
and clear the reassembly buffer; the loop continues (the branch returns a
successor state rather than breaking).  Returns the new state plus buffer
and whether a center command was issued. -/
def recv_error_step (st : loop_state) (_sb : List Nat) :
    (loop_state × List Nat) × Bool :=
  if st.centered_due_to_timeout = false then
    (({ st with centered_due_to_timeout := true, link_active := false }, []), true)
  else
    (({ st with link_active := false }, []), false)

/-! ## Chunked feeding (session loop: feed then parse, lines 626-630) -/

/-- Feed a list of datagrams one at a time, parsing after each feed exactly
as the session loop does; collects all emitted frames and the final
residual buffer. -/
def runChunks (b : List Nat) : List (List Nat) → List (List Nat) × List Nat
  | [] => ([], b)
  | c :: cs =>
    let p := crsf_stream_parse (crsf_stream_feed b c)
    let rest := runChunks p.2 cs
    (p.1 ++ rest.1, rest.2)

/-- Fold `crsf_stream_feed` over a list of appends, starting empty. -/
def feedAll (chunks : List (List Nat)) : List Nat :=
  chunks.foldl crsf_stream_feed []

/-- `clampi` (lines 417-421). -/
def clampi (v lo hi : Int) : Int :=
  if v < lo then lo else if hi < v then hi else v

/-! # Theorems -/

/-! ## Reassembly buffer (C5) -/

theorem drop_congr (l : List Nat) {m n : Nat} (h : m = n) : l.drop m = l.drop n := by
  rw [h]

theorem drop_append_of_le (X M : List Nat) (a : Nat) (h : a ≤ X.length) :
    (X ++ M).drop a = X.drop a ++ M := by
  rw [List.drop_append_eq_append_drop, Nat.sub_eq_zero_of_le h, List.drop_zero]

theorem feed_eq_drop (sb data : List Nat) (h : sb.length ≤ RXBUF_SIZE) :
    crsf_stream_feed sb data = (sb ++ data).drop (sb.length + data.length - RXBUF_SIZE) := by
  simp only [crsf_stream_feed]
  split_ifs with h0 hbig hov1 hov2
  · rw [List.length_eq_zero] at h0
    subst h0
    rw [List.append_nil, Nat.sub_eq_zero_of_le (by simpa using h), List.drop_zero]
  · -- oversized append, buffer nonempty: keep only the trailing capacity bytes
    have hd : data.length - (data.length - RXBUF_SIZE) = RXBUF_SIZE := by
      simp only [RXBUF_SIZE] at hbig ⊢; omega
    rw [List.length_drop, hd] at hov1 ⊢
    have e3 : sb.length + RXBUF_SIZE - RXBUF_SIZE = sb.length := by omega
    rw [e3, List.drop_length, List.nil_append, List.drop_append_eq_append_drop,
      List.drop_eq_nil_of_le
        (show sb.length ≤ sb.length + data.length - RXBUF_SIZE by omega),
      List.nil_append]
    exact drop_congr _ (by omega)
  · -- oversized append into an empty buffer
    rw [List.length_drop] at hov1
    have hsb : sb = [] := by
      rw [← List.length_eq_zero]
      have hd : data.length - (data.length - RXBUF_SIZE) = RXBUF_SIZE := by
        simp only [RXBUF_SIZE] at hbig ⊢; omega
      omega
    subst hsb
    simp only [List.nil_append, List.length_nil, Nat.zero_add]
  · rw [drop_append_of_le sb data _ (by omega)]
  · rw [Nat.sub_eq_zero_of_le (by omega), List.drop_zero]

theorem drop_append_drop (X M : List Nat) (a t : Nat) (h : a ≤ X.length) :
    (X.drop a ++ M).drop t = (X ++ M).drop (a + t) := by
  rw [← drop_append_of_le X M a h, List.drop_drop]

theorem foldl_feed_eq (cs : List (List Nat)) : ∀ sb : List Nat, sb.length ≤ RXBUF_SIZE →
    cs.foldl crsf_stream_feed sb
      = (sb ++ cs.flatten).drop ((sb ++ cs.flatten).length - RXBUF_SIZE) := by
  induction cs with
  | nil =>
    intro sb h
    simp only [List.foldl_nil, List.flatten_nil, List.append_nil]
    rw [Nat.sub_eq_zero_of_le h, List.drop_zero]
  | cons c cs ih =>
    intro sb h
    rw [List.foldl_cons, feed_eq_drop sb c h]
    have hstep : ((sb ++ c).drop (sb.length + c.length - RXBUF_SIZE)).length ≤ RXBUF_SIZE := by
      rw [List.length_drop, List.length_append]; omega
    rw [ih _ hstep,
      drop_append_drop (sb ++ c) cs.flatten _ _ (by rw [List.length_append]; omega),
      List.append_assoc, List.flatten_cons]
    simp only [List.length_drop, List.length_append]
    exact drop_congr _ (by omega)

/-- C5: the length of the reassembly buffer never exceeds the 4096-byte
capacity, and after every sequence of appends the buffer holds exactly the
trailing (at most 4096) bytes of the concatenated input stream, in order:
overflow discards the oldest bytes and an oversized single append keeps
only its trailing 4096 bytes. -/
theorem C5_feed_bounded_drop_oldest (chunks : List (List Nat)) :
    (feedAll chunks).length ≤ RXBUF_SIZE ∧
    feedAll chunks = chunks.flatten.drop (chunks.flatten.length - RXBUF_SIZE) := by
  have h := foldl_feed_eq chunks [] (by simp [RXBUF_SIZE])
  simp only [List.nil_append] at h
  refine ⟨?_, by rw [feedAll, h]⟩
  rw [feedAll, h, List.length_drop]
  omega

/-! ## Receive-error handling (C6) -/

/-- C6 counterexample: in a session that is already in the CENTERED state
(here: just after startup, `centered_due_to_timeout = true`), a socket
receive error does NOT issue a center command — the code guards the
centering with `if (!centered_due_to_timeout)`, so the command is not
unconditional as the claim states. -/
theorem C6_counterexample :
    (recv_error_step ⟨0, true, true⟩ [5, 6, 7]).2 = false := by
  rfl

/-- C6 (amended): on a socket receive error the loop clears all buffered
bytes, deactivates the link and is left in the CENTERED state, and — when
the state was not already CENTERED — issues a center command immediately,
independent of `last_valid_ms` and the failsafe timers; when the state was
already CENTERED no (redundant) center command is issued.  The branch
returns a successor state: the error is non-fatal. -/
theorem C6_recv_error_centers (st : loop_state) (sb : List Nat) :
    ((recv_error_step st sb).1.2 = [] ∧
      (recv_error_step st sb).1.1.link_active = false ∧
      (recv_error_step st sb).1.1.centered_due_to_timeout = true ∧
      (recv_error_step st sb).1.1.last_valid_ms = st.last_valid_ms) ∧
    (st.centered_due_to_timeout = false → (recv_error_step st sb).2 = true) ∧
    (st.centered_due_to_timeout = true → (recv_error_step st sb).2 = false) := by
  unfold recv_error_step
  rcases st with ⟨t, la, c⟩
  cases c <;> simp

theorem C6_witness :
    (recv_error_step ⟨7, true, false⟩ [1, 2, 3]).2 = true ∧
    (recv_error_step ⟨7, true, false⟩ [1, 2, 3]).1.2 = [] := by
  have h := C6_recv_error_centers ⟨7, true, false⟩ [1, 2, 3]
  exact ⟨h.2.1 rfl, h.1.1⟩

/-! ## Actuator channel set (C7) -/

/-- C7: on an available channel, the requested value is clamped into
`[min_us, max_us]` and any value handed to the hardware write lies in that
range; when the clamped value equals the held `last_us` no write occurs and
the state is unchanged; otherwise a write of the clamped value is
attempted, `last_us` is updated only when the write succeeds, and is left
unchanged on failure so the next differing command retries. -/
theorem C7_set_clamp_write_if_changed (min_us max_us : Int) (o : pwm_out) (us : Int)
    (w : Bool) (hav : o.available = true) (hmm : min_us ≤ max_us) :
    (∀ v, (pwm_set_us min_us max_us o us w).2 = some v →
        v = clampi us min_us max_us ∧ min_us ≤ v ∧ v ≤ max_us) ∧
    (o.last_us = clampi us min_us max_us →
        pwm_set_us min_us max_us o us w = (o, none)) ∧
    (o.last_us ≠ clampi us min_us max_us →
        (pwm_set_us min_us max_us o us w).2 = some (clampi us min_us max_us) ∧
        (w = true →
          (pwm_set_us min_us max_us o us w).1 = { o with last_us := clampi us min_us max_us }) ∧
        (w = false → (pwm_set_us min_us max_us o us w).1 = o)) := by
  have hcl : (if max_us < (if us < min_us then min_us else us) then max_us
      else (if us < min_us then min_us else us)) = clampi us min_us max_us := by
    unfold clampi
    split_ifs <;> omega
  unfold pwm_set_us
  rw [hav]
  simp only [Bool.true_eq_false, if_false, hcl]
  constructor
  · intro v hv
    by_cases hlast : o.last_us = clampi us min_us max_us
    · rw [if_pos hlast] at hv; simp at hv
    · rw [if_neg hlast] at hv
      have hv2 : v = clampi us min_us max_us := by
        cases w <;> simp at hv <;> omega
      refine ⟨hv2, ?_, ?_⟩ <;> (rw [hv2]; unfold clampi; split_ifs <;> omega)
  constructor
  · intro hlast; rw [if_pos hlast]
  · intro hlast; rw [if_neg hlast]
    refine ⟨by cases w <;> simp, fun hw => by rw [hw]; simp, fun hw => by rw [hw]; simp⟩

theorem C7_witness :
    ((pwm_set_us 1000 2000 ⟨1500, true⟩ 2500 false).2
        = some (clampi 2500 1000 2000)) ∧
    (pwm_set_us 1000 2000 ⟨1500, true⟩ 1500 true = (⟨1500, true⟩, none)) := by
  refine ⟨((C7_set_clamp_write_if_changed 1000 2000 ⟨1500, true⟩ 2500 false rfl
      (by decide)).2.2 (by decide)).1, ?_⟩
  exact (C7_set_clamp_write_if_changed 1000 2000 ⟨1500, true⟩ 1500 true rfl
      (by decide)).2.1 (by decide)

/-! ## PWM initialization (C9) -/

/-- C9 counterexample: when the disable write fails but everything else
succeeds, `pwm_init_one` still reports success — the C code discards the
result of the disable write (`(void)write_int_path(o->enable_path, 0)`),
so not every failure in the init sequence is fatal, contrary to the
claim. -/
theorem C9_counterexample :
    (pwm_init_one ⟨true, true, true, true, false, true, true, true⟩).1 = true := by
  rfl

/-- C9 (amended): initialization performs, in order, ensure-the-device-
resource-exists, disable, set period, set duty to center, enable; failure
of any of these steps EXCEPT the disable write (which the code performs
best-effort, discarding its result) makes that channel's init fail, and in
`main` a failed init of a configured channel exits with nonzero status
(modelled `none`) before the serving loop is entered. -/
theorem C9_init_sequence_fatal (env : pwm_env) :
    ((pwm_init_one env).1 = true →
      (pwm_init_one env).2
        = [.ensure_exported, .disable, .set_period, .set_duty_center, .enable]) ∧
    (env.period_write_ok = false → (pwm_init_one env).1 = false) ∧
    (env.duty_center_write_ok = false → (pwm_init_one env).1 = false) ∧
    (env.enable_write_ok = false → (pwm_init_one env).1 = false) ∧
    (env.duty_us_path_exists = false → (pwm_init_one env).1 = false) ∧
    (export_pwm_if_needed env = false → env.path_exists_after = false →
      (pwm_init_one env).1 = false) ∧
    ((export_pwm_if_needed env = true ∨ env.path_exists_after = true) →
      env.duty_us_path_exists = true → env.period_write_ok = true →
      env.duty_center_write_ok = true → env.enable_write_ok = true →
      (pwm_init_one env).1 = true) ∧
    (∀ pwm0_ch pwm1_ch : Int, ∀ env1, 0 < pwm0_ch → (pwm_init_one env).1 = false →
      main_init_pwms pwm0_ch pwm1_ch env env1 = none) := by
  rcases env with ⟨pb, ew, pa, du, di, pe, dc, en⟩
  refine ⟨?_, ?_, ?_, ?_, ?_, ?_, ?_, ?_⟩
  · revert pb ew pa du di pe dc en; decide
  · revert pb ew pa du di pe dc en; decide
  · revert pb ew pa du di pe dc en; decide
  · revert pb ew pa du di pe dc en; decide
  · revert pb ew pa du di pe dc en; decide
  · revert pb ew pa du di pe dc en; decide
  · revert pb ew pa du di pe dc en; decide
  · intro p0 p1 env1 hp0 hfail
    unfold main_init_pwms
    rw [if_pos ⟨hp0, hfail⟩]

theorem C9_witness :
    (pwm_init_one ⟨true, true, true, true, true, false, true, true⟩).1 = false ∧
    main_init_pwms 1 2 ⟨true, true, true, true, true, false, true, true⟩
      ⟨true, true, true, true, true, true, true, true⟩ = none := by
  have h := C9_init_sequence_fatal ⟨true, true, true, true, true, false, true, true⟩
  have hfail := h.2.1 rfl
  exact ⟨hfail, h.2.2.2.2.2.2.2 1 2 _ (by decide) hfail⟩

/-! ## Failsafe state machine (C1) -/

theorem c_int_of_u64_small (n : Nat) (h : n < 2 ^ 31) : c_int_of_u64 n = (n : Int) := by
  simp only [c_int_of_u64]
  rw [Nat.mod_eq_of_lt (by omega), if_pos h]

theorem failsafe_centered (tmo hold : Int) (st : loop_state) (now : Nat)
    (hc : st.centered_due_to_timeout = true) :
    failsafe_check tmo hold st now = (st, false) := by
  unfold failsafe_check
  split_ifs with h1 h2 h3 <;> simp_all

theorem failsafe_active (tmo hold : Int) (t0 now : Nat) (hle : t0 ≤ now)
    (hbnd : now - t0 < 2 ^ 31) :
    failsafe_check tmo hold ⟨t0, true, false⟩ now
      = if tmo ≤ ((now - t0 : Nat) : Int) then (⟨t0, true, true⟩, true)
        else (⟨t0, true, false⟩, false) := by
  unfold failsafe_check
  have hage : (2 ^ 64 + now - t0) % 2 ^ 64 = now - t0 := by omega
  simp only [hage, c_int_of_u64_small _ hbnd]
  split_ifs with h1 h2 h3 <;> simp_all

theorem loop_tick_nodata (tmo hold : Int) (st : loop_state) (now : Nat) :
    loop_tick tmo hold st now false
      = ((failsafe_check tmo hold st now).1, false, (failsafe_check tmo hold st now).2) := by
  simp [loop_tick]

theorem loop_tick_data (tmo hold : Int) (st : loop_state) (now : Nat) :
    loop_tick tmo hold st now true
      = ((failsafe_check tmo hold (rc_update now) now).1, true,
          (failsafe_check tmo hold (rc_update now) now).2) := by
  simp [loop_tick]

theorem run_centered_acc (tmo hold : Int) (evts : List (Nat × Bool)) :
    ∀ (st : loop_state) (k : Nat), st.centered_due_to_timeout = true →
      (∀ e ∈ evts, e.2 = false) →
      evts.foldl
        (fun acc e =>
          ((loop_tick tmo hold acc.1 e.1 e.2).1,
            acc.2 + if (loop_tick tmo hold acc.1 e.1 e.2).2.2 then 1 else 0)) (st, k)
      = (st, k) := by
  induction evts with
  | nil => intro st k _ _; rfl
  | cons e es ih =>
    intro st k h hn
    have he : e.2 = false := hn e (List.mem_cons_self e es)
    have ht : loop_tick tmo hold st e.1 false = (st, false, false) := by
      rw [loop_tick_nodata, failsafe_centered tmo hold st e.1 h]
    rw [List.foldl_cons]
    have hstep :
        ((loop_tick tmo hold (st, k).1 e.1 e.2).1,
          (st, k).2 + if (loop_tick tmo hold (st, k).1 e.1 e.2).2.2 then 1 else 0)
        = (st, k) := by
      rw [show (st, k).1 = st from rfl, he, ht]
      rfl
    rw [hstep]
    exact ih st k h fun x hx => hn x (List.mem_cons_of_mem e hx)

theorem run_active (tmo hold : Int) (t0 : Nat) (evts : List (Nat × Bool))
    (hev : ∀ e ∈ evts, e.2 = false ∧ t0 ≤ e.1 ∧ e.1 - t0 < 2 ^ 31) :
    run_ticks tmo hold ⟨t0, true, false⟩ evts
      = if ∃ e ∈ evts, tmo ≤ ((e.1 - t0 : Nat) : Int) then (⟨t0, true, true⟩, 1)
        else (⟨t0, true, false⟩, 0) := by
  induction evts with
  | nil => simp [run_ticks]
  | cons e es ih =>
    obtain ⟨he2, hle, hbnd⟩ := hev e (List.mem_cons_self e es)
    have htail : ∀ x ∈ es, x.2 = false ∧ t0 ≤ x.1 ∧ x.1 - t0 < 2 ^ 31 :=
      fun x hx => hev x (List.mem_cons_of_mem e hx)
    by_cases hc : tmo ≤ ((e.1 - t0 : Nat) : Int)
    · have ht : loop_tick tmo hold ⟨t0, true, false⟩ e.1 false
          = (⟨t0, true, true⟩, false, true) := by
        rw [loop_tick_nodata, failsafe_active tmo hold t0 e.1 hle hbnd, if_pos hc]
      rw [if_pos ⟨e, List.mem_cons_self e es, hc⟩, run_ticks, List.foldl_cons]
      have hstep :
          ((loop_tick tmo hold ((⟨t0, true, false⟩ : loop_state), 0).1 e.1 e.2).1,
            ((⟨t0, true, false⟩ : loop_state), 0).2
              + if (loop_tick tmo hold ((⟨t0, true, false⟩ : loop_state), 0).1 e.1 e.2).2.2
                then 1 else 0)
          = (⟨t0, true, true⟩, 1) := by
        rw [show ((⟨t0, true, false⟩ : loop_state), 0).1 = (⟨t0, true, false⟩ : loop_state)
            from rfl, he2, ht]
        rfl
      rw [hstep]
      exact run_centered_acc tmo hold es ⟨t0, true, true⟩ 1 rfl fun x hx => (htail x hx).1
    · have hcond : (∃ x ∈ e :: es, tmo ≤ ((x.1 - t0 : Nat) : Int))
          ↔ (∃ x ∈ es, tmo ≤ ((x.1 - t0 : Nat) : Int)) := by
        constructor
        · rintro ⟨x, hx, hpx⟩
          rcases List.mem_cons.mp hx with rfl | hx2
          · exact absurd hpx hc
          · exact ⟨x, hx2, hpx⟩
        · rintro ⟨x, hx, hpx⟩
          exact ⟨x, List.mem_cons_of_mem e hx, hpx⟩
      have ht : loop_tick tmo hold ⟨t0, true, false⟩ e.1 false
          = (⟨t0, true, false⟩, false, false) := by
        rw [loop_tick_nodata, failsafe_active tmo hold t0 e.1 hle hbnd, if_neg hc]
      rw [run_ticks, List.foldl_cons]
      have hstep :
          ((loop_tick tmo hold ((⟨t0, true, false⟩ : loop_state), 0).1 e.1 e.2).1,
            ((⟨t0, true, false⟩ : loop_state), 0).2
              + if (loop_tick tmo hold ((⟨t0, true, false⟩ : loop_state), 0).1 e.1 e.2).2.2
                then 1 else 0)
          = (⟨t0, true, false⟩, 0) := by
        rw [show ((⟨t0, true, false⟩ : loop_state), 0).1 = (⟨t0, true, false⟩ : loop_state)
            from rfl, he2, ht]
        rfl
      rw [hstep]
      have hih := ih htail
      rw [run_ticks] at hih
      rw [hih, if_congr hcond.symm rfl rfl]

/-- C1: starting from an ACTIVE link with last valid frame at `t0`, over any
run of data-less ticks the controller issues exactly one center command when
some tick's age reaches `center_timeout_ms` (transitioning to CENTERED) and
none otherwise; a single tick whose age lies in `[hold_ms,
center_timeout_ms)` issues no actuator command at all and leaves the state
untouched; once CENTERED, further data-less ticks never issue another
center command; and a tick that decodes a valid frame returns the state to
ACTIVE with pass-through and no center command. -/
theorem C1_failsafe_center_once (tmo hold : Int) (hh : 0 ≤ hold) (hht : hold ≤ tmo) :
    (∀ (t0 : Nat) (evts : List (Nat × Bool)),
       (∀ e ∈ evts, e.2 = false ∧ t0 ≤ e.1 ∧ e.1 - t0 < 2 ^ 31) →
       run_ticks tmo hold ⟨t0, true, false⟩ evts
         = if ∃ e ∈ evts, tmo ≤ ((e.1 - t0 : Nat) : Int) then (⟨t0, true, true⟩, 1)
           else (⟨t0, true, false⟩, 0)) ∧
    (∀ (st : loop_state) (now : Nat),
       st.link_active = true → st.centered_due_to_timeout = false →
       st.last_valid_ms ≤ now → now - st.last_valid_ms < 2 ^ 31 →
       hold ≤ ((now - st.last_valid_ms : Nat) : Int) →
       ((now - st.last_valid_ms : Nat) : Int) < tmo →
       loop_tick tmo hold st now false = (st, false, false)) ∧
    (∀ (st : loop_state) (now : Nat), st.centered_due_to_timeout = true →
       loop_tick tmo hold st now false = (st, false, false)) ∧
    (∀ (st : loop_state) (now : Nat), 0 < tmo →
       loop_tick tmo hold st now true = (⟨now, true, false⟩, true, false)) := by
  refine ⟨fun t0 evts hev => run_active tmo hold t0 evts hev, ?_, ?_, ?_⟩
  · rintro ⟨t0, la, c⟩ now hla hc hle hbnd hhold htmo
    simp only [loop_state.link_active] at hla
    simp only [loop_state.centered_due_to_timeout] at hc
    simp only [loop_state.last_valid_ms] at hle hbnd htmo
    subst hla; subst hc
    rw [loop_tick_nodata, failsafe_active tmo hold t0 now hle hbnd,
      if_neg (not_le.mpr htmo)]
  · intro st now hc
    rw [loop_tick_nodata, failsafe_centered tmo hold st now hc]
  · intro st now htmo
    rw [loop_tick_data,
      show rc_update now = (⟨now, true, false⟩ : loop_state) from rfl,
      failsafe_active tmo hold now now le_rfl (by simp),
      if_neg (by simp; omega)]

theorem C1_witness :
    (0 : Int) ≤ 300 ∧ (300 : Int) ≤ 500 ∧
    run_ticks 500 300 ⟨0, true, false⟩ [(100, false), (400, false), (500, false), (520, false)]
      = (⟨0, true, true⟩, 1) := by
  refine ⟨by decide, by decide, ?_⟩
  have h := (C1_failsafe_center_once 500 300 (by decide) (by decide)).1 0
    [(100, false), (400, false), (500, false), (520, false)] (by decide)
  rw [h]
  decide

/-! ## Channel-decoder payload length (C4) -/

/-- C4 counterexample: a 23-byte payload — a length other than exactly
22 — is accepted by `crsf_unpack_rc16_11bit` (the C code only rejects
`len < 22`), contradicting the claim that every payload whose length is
not exactly 22 produces no ChannelFrame. -/
theorem C4_counterexample :
    crsf_unpack_rc16_11bit (List.replicate 23 0) ≠ none := by
  decide

/-- C4 (amended): `crsf_unpack_rc16_11bit` rejects every payload SHORTER
than 22 bytes (returning `none`); payloads longer than 22 bytes are
accepted by the function itself, but the stream parser invokes the channel
update only under the guard `payload_len == 22`, so a CRC-valid frame of
the RC-channels type whose payload length differs from 22 never updates
the channel values or the `got_rc` flag. -/
theorem C4_unpack_length :
    (∀ p : List Nat, p.length < 22 → crsf_unpack_rc16_11bit p = none) ∧
    (∀ res frame, frame.getD 2 0 = 0x16 → frame.getD 1 0 - 2 ≠ 22 →
      crsf_apply_frame res frame = res) := by
  constructor
  · intro p hp
    unfold crsf_unpack_rc16_11bit
    rw [if_pos hp]
  · intro res frame hty hlen
    unfold crsf_apply_frame
    simp only [hty, if_true, if_neg hlen]

/-! ## Frame-decoder scan: branch equations -/

theorem scanA_stop (buf : List Nat) (h : buf.length < 4) :
    specScanAddr buf = ([], buf) := by
  conv_lhs => rw [specScanAddr]
  rw [if_neg (by omega)]

theorem scanA_skip_sync (buf : List Nat) (h4 : 4 ≤ buf.length)
    (hs : buf.getD 0 0 ≠ 0xC8) :
    specScanAddr buf = specScanAddr (buf.drop 1) := by
  conv_lhs => rw [specScanAddr]
  rw [if_pos h4, if_pos hs]

theorem scanA_skip_len (buf : List Nat) (h4 : 4 ≤ buf.length)
    (hs : buf.getD 0 0 = 0xC8) (hl : buf.getD 1 0 < 2 ∨ 62 < buf.getD 1 0) :
    specScanAddr buf = specScanAddr (buf.drop 1) := by
  conv_lhs => rw [specScanAddr]
  rw [if_pos h4, if_neg (not_not_intro hs), if_pos hl]

theorem scanA_incomplete (buf : List Nat) (h4 : 4 ≤ buf.length)
    (hs : buf.getD 0 0 = 0xC8) (hl : ¬(buf.getD 1 0 < 2 ∨ 62 < buf.getD 1 0))
    (hc : buf.length < buf.getD 1 0 + 2) :
    specScanAddr buf = ([], buf) := by
  conv_lhs => rw [specScanAddr]
  rw [if_pos h4, if_neg (not_not_intro hs), if_neg hl, if_pos hc]

theorem scanA_skip_crc (buf : List Nat) (h4 : 4 ≤ buf.length)
    (hs : buf.getD 0 0 = 0xC8) (hl : ¬(buf.getD 1 0 < 2 ∨ 62 < buf.getD 1 0))
    (hc : ¬buf.length < buf.getD 1 0 + 2)
    (hcrc : crsf_crc8 ((buf.drop 2).take (buf.getD 1 0 - 1)) ≠ buf.getD (buf.getD 1 0 + 1) 0) :
    specScanAddr buf = specScanAddr (buf.drop 1) := by
  conv_lhs => rw [specScanAddr]
  rw [if_pos h4, if_neg (not_not_intro hs), if_neg hl, if_neg hc, if_pos hcrc]

theorem scanA_emit (buf : List Nat) (h4 : 4 ≤ buf.length)
    (hs : buf.getD 0 0 = 0xC8) (hl : ¬(buf.getD 1 0 < 2 ∨ 62 < buf.getD 1 0))
    (hc : ¬buf.length < buf.getD 1 0 + 2)
    (hcrc : crsf_crc8 ((buf.drop 2).take (buf.getD 1 0 - 1)) = buf.getD (buf.getD 1 0 + 1) 0) :
    specScanAddr buf
      = (buf.take (buf.getD 1 0 + 2) :: (specScanAddr (buf.drop (buf.getD 1 0 + 2))).1,
          (specScanAddr (buf.drop (buf.getD 1 0 + 2))).2) := by
  conv_lhs => rw [specScanAddr]
  rw [if_pos h4, if_neg (not_not_intro hs), if_neg hl, if_neg hc, if_neg (not_not_intro hcrc)]

theorem ploop_stop (data : List Nat) (i : Nat) (h : data.length - i < 4) :
    parseLoop data i = ([], i) := by
  conv_lhs => rw [parseLoop]
  rw [dif_neg (by omega)]

theorem ploop_skip_sync (data : List Nat) (i : Nat) (h4 : 4 ≤ data.length - i)
    (hs : data.getD i 0 ≠ 0xC8) :
    parseLoop data i = parseLoop data (i + 1) := by
  conv_lhs => rw [parseLoop]
  rw [dif_pos h4, if_pos hs]

theorem ploop_skip_len (data : List Nat) (i : Nat) (h4 : 4 ≤ data.length - i)
    (hs : data.getD i 0 = 0xC8)
    (hl : data.getD (i + 1) 0 < 2 ∨ 62 < data.getD (i + 1) 0) :
    parseLoop data i = parseLoop data (i + 1) := by
  conv_lhs => rw [parseLoop]
  rw [dif_pos h4, if_neg (not_not_intro hs), if_pos hl]

theorem ploop_incomplete (data : List Nat) (i : Nat) (h4 : 4 ≤ data.length - i)
    (hs : data.getD i 0 = 0xC8)
    (hl : ¬(data.getD (i + 1) 0 < 2 ∨ 62 < data.getD (i + 1) 0))
    (hc : data.length - i < data.getD (i + 1) 0 + 2) :
    parseLoop data i = ([], i) := by
  conv_lhs => rw [parseLoop]
  rw [dif_pos h4, if_neg (not_not_intro hs), if_neg hl, if_pos hc]

theorem ploop_skip_crc (data : List Nat) (i : Nat) (h4 : 4 ≤ data.length - i)
    (hs : data.getD i 0 = 0xC8)
    (hl : ¬(data.getD (i + 1) 0 < 2 ∨ 62 < data.getD (i + 1) 0))
    (hc : ¬data.length - i < data.getD (i + 1) 0 + 2)
    (hcrc : crsf_crc8 ((data.drop (i + 2)).take (data.getD (i + 1) 0 - 1))
      ≠ data.getD (i + (data.getD (i + 1) 0 + 2) - 1) 0) :
    parseLoop data i = parseLoop data (i + 1) := by
  conv_lhs => rw [parseLoop]
  rw [dif_pos h4, if_neg (not_not_intro hs), if_neg hl, if_neg hc, if_pos hcrc]

theorem ploop_emit (data : List Nat) (i : Nat) (h4 : 4 ≤ data.length - i)
    (hs : data.getD i 0 = 0xC8)
    (hl : ¬(data.getD (i + 1) 0 < 2 ∨ 62 < data.getD (i + 1) 0))
    (hc : ¬data.length - i < data.getD (i + 1) 0 + 2)
    (hcrc : crsf_crc8 ((data.drop (i + 2)).take (data.getD (i + 1) 0 - 1))
      = data.getD (i + (data.getD (i + 1) 0 + 2) - 1) 0) :
    parseLoop data i
      = ((data.drop i).take (data.getD (i + 1) 0 + 2)
            :: (parseLoop data (i + (data.getD (i + 1) 0 + 2))).1,
          (parseLoop data (i + (data.getD (i + 1) 0 + 2))).2) := by
  conv_lhs => rw [parseLoop]
  rw [dif_pos h4, if_neg (not_not_intro hs), if_neg hl, if_neg hc, if_neg (not_not_intro hcrc)]

/-! ## Frame-decoder scan: the cursor loop refines the recursive scan -/

theorem getD_drop (l : List Nat) (n k : Nat) : (l.drop n).getD k 0 = l.getD (n + k) 0 := by
  simp [List.getD_eq_getElem?_getD, List.getElem?_drop]

theorem parseLoop_eq_scan : ∀ (n : Nat) (data : List Nat) (i : Nat),
    data.length - i ≤ n → i ≤ data.length →
    parseLoop data i
      = ((specScanAddr (data.drop i)).1,
          data.length - (specScanAddr (data.drop i)).2.length) := by
  intro n
  induction n with
  | zero =>
    intro data i hn hi
    rw [ploop_stop data i (by omega), scanA_stop _ (by rw [List.length_drop]; omega)]
    simp only [Prod.mk.injEq, List.length_drop]
    exact ⟨trivial, by omega⟩
  | succ n ih =>
    intro data i hn hi
    by_cases h4 : 4 ≤ data.length - i
    case neg =>
      rw [ploop_stop data i (by omega), scanA_stop _ (by rw [List.length_drop]; omega)]
      simp only [Prod.mk.injEq, List.length_drop]
      exact ⟨trivial, by omega⟩
    case pos =>
      have h4' : 4 ≤ (data.drop i).length := by rw [List.length_drop]; omega
      have hg0 : (data.drop i).getD 0 0 = data.getD i 0 := by
        rw [getD_drop, Nat.add_zero]
      have hg1 : (data.drop i).getD 1 0 = data.getD (i + 1) 0 := getD_drop data i 1
      have hdd1 : (data.drop i).drop 1 = data.drop (i + 1) := List.drop_drop 1 i data
      by_cases hs : data.getD i 0 = 0xC8
      case neg =>
        rw [ploop_skip_sync data i h4 hs,
          scanA_skip_sync (data.drop i) h4' (by rw [hg0]; exact hs), hdd1]
        exact ih data (i + 1) (by omega) (by omega)
      case pos =>
      by_cases hl : data.getD (i + 1) 0 < 2 ∨ 62 < data.getD (i + 1) 0
      case pos =>
        rw [ploop_skip_len data i h4 hs hl,
          scanA_skip_len (data.drop i) h4' (by rw [hg0]; exact hs)
            (by rw [hg1]; exact hl), hdd1]
        exact ih data (i + 1) (by omega) (by omega)
      case neg =>
      by_cases hc : data.length - i < data.getD (i + 1) 0 + 2
      case pos =>
        rw [ploop_incomplete data i h4 hs hl hc,
          scanA_incomplete (data.drop i) h4' (by rw [hg0]; exact hs)
            (by rw [hg1]; exact hl) (by rw [List.length_drop, hg1]; exact hc)]
        simp only [Prod.mk.injEq, List.length_drop]
        exact ⟨trivial, by omega⟩
      case neg =>
      have hcrcarg : ((data.drop i).drop 2).take ((data.drop i).getD 1 0 - 1)
          = (data.drop (i + 2)).take (data.getD (i + 1) 0 - 1) := by
        rw [List.drop_drop, hg1]
      have hrx : (data.drop i).getD ((data.drop i).getD 1 0 + 1) 0
          = data.getD (i + (data.getD (i + 1) 0 + 2) - 1) 0 := by
        rw [hg1, getD_drop,
          show i + (data.getD (i + 1) 0 + 1) = i + (data.getD (i + 1) 0 + 2) - 1 by omega]
      have hddf : (data.drop i).drop (data.getD (i + 1) 0 + 2)
          = data.drop (i + (data.getD (i + 1) 0 + 2)) :=
        List.drop_drop _ i data
      by_cases hcrc : crsf_crc8 ((data.drop (i + 2)).take (data.getD (i + 1) 0 - 1))
          = data.getD (i + (data.getD (i + 1) 0 + 2) - 1) 0
      case pos =>
        rw [ploop_emit data i h4 hs hl hc hcrc,
          scanA_emit (data.drop i) h4' (by rw [hg0]; exact hs) (by rw [hg1]; exact hl)
            (by rw [List.length_drop, hg1]; exact hc) (by rw [hcrcarg, hrx]; exact hcrc),
          hg1, hddf, ih data (i + (data.getD (i + 1) 0 + 2)) (by omega) (by omega)]
      case neg =>
        rw [ploop_skip_crc data i h4 hs hl hc hcrc,
          scanA_skip_crc (data.drop i) h4' (by rw [hg0]; exact hs) (by rw [hg1]; exact hl)
            (by rw [List.length_drop, hg1]; exact hc) (by rw [hcrcarg, hrx]; exact hcrc),
          hdd1]
        exact ih data (i + 1) (by omega) (by omega)

theorem scanA_suffix : ∀ (n : Nat) (buf : List Nat), buf.length ≤ n →
    (specScanAddr buf).2 <:+ buf := by
  intro n
  induction n with
  | zero =>
    intro buf hn
    rw [scanA_stop buf (by omega)]
  | succ n ih =>
    intro buf hn
    by_cases h4 : 4 ≤ buf.length
    case neg => rw [scanA_stop buf (by omega)]
    case pos =>
    have hb1 : (buf.drop 1).length ≤ n := by rw [List.length_drop]; omega
    by_cases hs : buf.getD 0 0 = 0xC8
    case neg =>
      rw [scanA_skip_sync buf h4 hs]
      exact (ih _ hb1).trans (List.drop_suffix 1 buf)
    case pos =>
    by_cases hl : buf.getD 1 0 < 2 ∨ 62 < buf.getD 1 0
    case pos =>
      rw [scanA_skip_len buf h4 hs hl]
      exact (ih _ hb1).trans (List.drop_suffix 1 buf)
    case neg =>
    by_cases hc : buf.length < buf.getD 1 0 + 2
    case pos => rw [scanA_incomplete buf h4 hs hl hc]
    case neg =>
    by_cases hcrc : crsf_crc8 ((buf.drop 2).take (buf.getD 1 0 - 1))
        = buf.getD (buf.getD 1 0 + 1) 0
    case pos =>
      rw [scanA_emit buf h4 hs hl hc hcrc]
      exact (ih _ (by rw [List.length_drop]; omega)).trans
        (List.drop_suffix (buf.getD 1 0 + 2) buf)
    case neg =>
      rw [scanA_skip_crc buf h4 hs hl hc hcrc]
      exact (ih _ hb1).trans (List.drop_suffix 1 buf)

theorem suffix_drop_eq (l r : List Nat) (h : r <:+ l) :
    l.drop (l.length - r.length) = r := by
  obtain ⟨p, hp⟩ := h
  subst hp
  rw [List.length_append,
    show p.length + r.length - r.length = p.length by omega, List.drop_left]

theorem parse_eq_scanAddr (sb : List Nat) : crsf_stream_parse sb = specScanAddr sb := by
  have h := parseLoop_eq_scan sb.length sb 0 (by omega) (by omega)
  rw [List.drop_zero] at h
  simp only [crsf_stream_parse]
  rw [h, suffix_drop_eq sb _ (scanA_suffix sb.length sb le_rfl)]

/-! ## Frame-decoder scan: stability of the residual and appending -/

theorem scanA_idem : ∀ (n : Nat) (buf : List Nat), buf.length ≤ n →
    specScanAddr (specScanAddr buf).2 = ([], (specScanAddr buf).2) := by
  intro n
  induction n with
  | zero =>
    intro buf hn
    rw [scanA_stop buf (by omega)]
    exact scanA_stop buf (by omega)
  | succ n ih =>
    intro buf hn
    by_cases h4 : 4 ≤ buf.length
    case neg =>
      rw [scanA_stop buf (by omega)]
      exact scanA_stop buf (by omega)
    case pos =>
    have hb1 : (buf.drop 1).length ≤ n := by rw [List.length_drop]; omega
    by_cases hs : buf.getD 0 0 = 0xC8
    case neg =>
      rw [scanA_skip_sync buf h4 hs]
      exact ih _ hb1
    case pos =>
    by_cases hl : buf.getD 1 0 < 2 ∨ 62 < buf.getD 1 0
    case pos =>
      rw [scanA_skip_len buf h4 hs hl]
      exact ih _ hb1
    case neg =>
    by_cases hc : buf.length < buf.getD 1 0 + 2
    case pos =>
      rw [scanA_incomplete buf h4 hs hl hc]
      exact scanA_incomplete buf h4 hs hl hc
    case neg =>
    by_cases hcrc : crsf_crc8 ((buf.drop 2).take (buf.getD 1 0 - 1))
        = buf.getD (buf.getD 1 0 + 1) 0
    case pos =>
      rw [scanA_emit buf h4 hs hl hc hcrc]
      exact ih _ (by rw [List.length_drop]; omega)
    case neg =>
      rw [scanA_skip_crc buf h4 hs hl hc hcrc]
      exact ih _ hb1

theorem take_append_of_le (X M : List Nat) (a : Nat) (h : a ≤ X.length) :
    (X ++ M).take a = X.take a := by
  rw [List.take_append_eq_append_take, Nat.sub_eq_zero_of_le h, List.take_zero,
    List.append_nil]

theorem scanA_append : ∀ (n : Nat) (buf more : List Nat), buf.length ≤ n →
    specScanAddr (buf ++ more)
      = ((specScanAddr buf).1 ++ (specScanAddr ((specScanAddr buf).2 ++ more)).1,
          (specScanAddr ((specScanAddr buf).2 ++ more)).2) := by
  intro n
  induction n with
  | zero =>
    intro buf more hn
    rw [scanA_stop buf (by omega)]
    simp only [List.nil_append]
  | succ n ih =>
    intro buf more hn
    by_cases h4 : 4 ≤ buf.length
    case neg =>
      rw [scanA_stop buf (by omega)]
      simp only [List.nil_append]
    case pos =>
    have h4' : 4 ≤ (buf ++ more).length := by rw [List.length_append]; omega
    have hg0 : (buf ++ more).getD 0 0 = buf.getD 0 0 :=
      List.getD_append buf more 0 0 (by omega)
    have hg1 : (buf ++ more).getD 1 0 = buf.getD 1 0 :=
      List.getD_append buf more 0 1 (by omega)
    have hd1 : (buf ++ more).drop 1 = buf.drop 1 ++ more :=
      drop_append_of_le buf more 1 (by omega)
    have hb1 : (buf.drop 1).length ≤ n := by rw [List.length_drop]; omega
    by_cases hs : buf.getD 0 0 = 0xC8
    case neg =>
      rw [scanA_skip_sync (buf ++ more) h4' (by rw [hg0]; exact hs), hd1,
        scanA_skip_sync buf h4 hs]
      exact ih (buf.drop 1) more hb1
    case pos =>
    by_cases hl : buf.getD 1 0 < 2 ∨ 62 < buf.getD 1 0
    case pos =>
      rw [scanA_skip_len (buf ++ more) h4' (by rw [hg0]; exact hs) (by rw [hg1]; exact hl),
        hd1, scanA_skip_len buf h4 hs hl]
      exact ih (buf.drop 1) more hb1
    case neg =>
    by_cases hc : buf.length < buf.getD 1 0 + 2
    case pos =>
      rw [scanA_incomplete buf h4 hs hl hc]
      simp only [List.nil_append]
    case neg =>
    have hc' : ¬(buf ++ more).length < (buf ++ more).getD 1 0 + 2 := by
      rw [hg1, List.length_append]; omega
    have hcrcarg : ((buf ++ more).drop 2).take ((buf ++ more).getD 1 0 - 1)
        = (buf.drop 2).take (buf.getD 1 0 - 1) := by
      rw [hg1, drop_append_of_le buf more 2 (by omega),
        take_append_of_le _ more _ (by rw [List.length_drop]; omega)]
    have hrx : (buf ++ more).getD ((buf ++ more).getD 1 0 + 1) 0
        = buf.getD (buf.getD 1 0 + 1) 0 := by
      rw [hg1]
      exact List.getD_append buf more 0 _ (by omega)
    by_cases hcrc : crsf_crc8 ((buf.drop 2).take (buf.getD 1 0 - 1))
        = buf.getD (buf.getD 1 0 + 1) 0
    case pos =>
      rw [scanA_emit (buf ++ more) h4' (by rw [hg0]; exact hs) (by rw [hg1]; exact hl)
          hc' (by rw [hcrcarg, hrx]; exact hcrc),
        hg1, take_append_of_le buf more _ (by omega),
        drop_append_of_le buf more _ (by omega),
        scanA_emit buf h4 hs hl hc hcrc,
        ih (buf.drop (buf.getD 1 0 + 2)) more (by rw [List.length_drop]; omega),
        List.cons_append]
    case neg =>
      rw [scanA_skip_crc (buf ++ more) h4' (by rw [hg0]; exact hs) (by rw [hg1]; exact hl)
          hc' (by rw [hcrcarg, hrx]; exact hcrc),
        hd1, scanA_skip_crc buf h4 hs hl hc hcrc]
      exact ih (buf.drop 1) more hb1

/-! ## Residual bound (C10) -/

theorem scanA_res_bound : ∀ (n : Nat) (buf : List Nat), buf.length ≤ n →
    (specScanAddr buf).2.length < 4 ∨
      ((specScanAddr buf).2.getD 0 0 = 0xC8 ∧ 2 ≤ (specScanAddr buf).2.getD 1 0 ∧
        (specScanAddr buf).2.getD 1 0 ≤ 62 ∧
        (specScanAddr buf).2.length < (specScanAddr buf).2.getD 1 0 + 2) := by
  intro n
  induction n with
  | zero =>
    intro buf hn
    rw [scanA_stop buf (by omega)]
    refine Or.inl ?_
    show buf.length < 4
    omega
  | succ n ih =>
    intro buf hn
    by_cases h4 : 4 ≤ buf.length
    case neg =>
      rw [scanA_stop buf (by omega)]
      refine Or.inl ?_
      show buf.length < 4
      omega
    case pos =>
    have hb1 : (buf.drop 1).length ≤ n := by rw [List.length_drop]; omega
    by_cases hs : buf.getD 0 0 = 0xC8
    case neg =>
      rw [scanA_skip_sync buf h4 hs]
      exact ih _ hb1
    case pos =>
    by_cases hl : buf.getD 1 0 < 2 ∨ 62 < buf.getD 1 0
    case pos =>
      rw [scanA_skip_len buf h4 hs hl]
      exact ih _ hb1
    case neg =>
    by_cases hc : buf.length < buf.getD 1 0 + 2
    case pos =>
      rw [scanA_incomplete buf h4 hs hl hc]
      refine Or.inr ⟨hs, ?_, ?_, hc⟩
      · show 2 ≤ buf.getD 1 0
        omega
      · show buf.getD 1 0 ≤ 62
        omega
    case neg =>
    by_cases hcrc : crsf_crc8 ((buf.drop 2).take (buf.getD 1 0 - 1))
        = buf.getD (buf.getD 1 0 + 1) 0
    case pos =>
      rw [scanA_emit buf h4 hs hl hc hcrc]
      exact ih _ (by rw [List.length_drop]; omega)
    case neg =>
      rw [scanA_skip_crc buf h4 hs hl hc hcrc]
      exact ih _ hb1

/-- C10: after a single `crsf_stream_parse` call at most 63 bytes remain
buffered: the residue is either a tail of fewer than 4 bytes or one
incomplete candidate frame — correct address byte, length field in [2, 62],
total claimed size `length + 2 ≤ 64` exceeding the buffered bytes — so
noise can never accumulate across parse calls. -/
theorem C10_parse_residual_bound (sb : List Nat) :
    (crsf_stream_parse sb).2.length ≤ 63 ∧
      ((crsf_stream_parse sb).2.length < 4 ∨
        ((crsf_stream_parse sb).2.getD 0 0 = 0xC8 ∧
          2 ≤ (crsf_stream_parse sb).2.getD 1 0 ∧
          (crsf_stream_parse sb).2.getD 1 0 ≤ 62 ∧
          (crsf_stream_parse sb).2.length < (crsf_stream_parse sb).2.getD 1 0 + 2)) := by
  rw [parse_eq_scanAddr]
  have h := scanA_res_bound sb.length sb le_rfl
  refine ⟨?_, h⟩
  rcases h with h | ⟨_, _, h62, hlt⟩
  · omega
  · omega

/-! ## The scan follows the claimed algorithm with the address filter (C2) -/

theorem scanN_stop (buf : List Nat) (h : buf.length < 4) :
    specScanNoAddr buf = ([], buf) := by
  conv_lhs => rw [specScanNoAddr]
  rw [if_neg (by omega)]

theorem scanN_emit (buf : List Nat) (h4 : 4 ≤ buf.length)
    (hl : ¬(buf.getD 1 0 < 2 ∨ 62 < buf.getD 1 0))
    (hc : ¬buf.length < buf.getD 1 0 + 2)
    (hcrc : crsf_crc8 ((buf.drop 2).take (buf.getD 1 0 - 1)) = buf.getD (buf.getD 1 0 + 1) 0) :
    specScanNoAddr buf
      = (buf.take (buf.getD 1 0 + 2) :: (specScanNoAddr (buf.drop (buf.getD 1 0 + 2))).1,
          (specScanNoAddr (buf.drop (buf.getD 1 0 + 2))).2) := by
  conv_lhs => rw [specScanNoAddr]
  rw [if_pos h4, if_neg hl, if_neg hc, if_neg (not_not_intro hcrc)]

/-- C2 counterexample: on the buffer `[0x00, 0x02, 0x16, 0xD3]` — a
structurally valid frame with correct CRC but address byte `0x00` — the
claimed algorithm (no address filtering, `specScanNoAddr`) emits the frame
and consumes it, while the code's scan rejects the address, advances one
byte and emits nothing.  The code therefore does not follow the claim's
algorithm as stated. -/
theorem C2_counterexample :
    crsf_stream_parse [0x00, 0x02, 0x16, 0xD3]
        ≠ specScanNoAddr [0x00, 0x02, 0x16, 0xD3] ∧
      crsf_stream_parse [0x00, 0x02, 0x16, 0xD3] = ([], [0x02, 0x16, 0xD3]) ∧
      specScanNoAddr [0x00, 0x02, 0x16, 0xD3] = ([[0x00, 0x02, 0x16, 0xD3]], []) := by
  have e1 : parseLoop [0x00, 0x02, 0x16, 0xD3] 0 = ([], 1) := by
    rw [ploop_skip_sync _ 0 (by decide) (by decide), ploop_stop _ 1 (by decide)]
  have e2 : specScanNoAddr [0x00, 0x02, 0x16, 0xD3] = ([[0x00, 0x02, 0x16, 0xD3]], []) := by
    rw [scanN_emit _ (by decide) (by decide) (by decide) (by decide),
      scanN_stop (List.drop ([0x00, 0x02, 0x16, 0xD3].getD 1 0 + 2) [0x00, 0x02, 0x16, 0xD3])
        (by decide)]
    decide
  have e3 : crsf_stream_parse [0x00, 0x02, 0x16, 0xD3] = ([], [0x02, 0x16, 0xD3]) := by
    simp only [crsf_stream_parse, e1]
    decide
  refine ⟨?_, e3, e2⟩
  rw [e3, e2]
  decide

/-- C2 (amended): one pass of the code's frame-decoder scan follows the
claimed algorithm amended with the address filter the code applies first:
while at least 4 unconsumed bytes remain it examines the candidate at the
cursor; a candidate whose address byte is not `0xC8` advances the cursor by
exactly one byte; then a length byte outside [2, 62] advances by one; an
incompletely buffered frame stops the scan without consuming it; otherwise
CRC-8 (poly 0xD5, MSB-first, init 0, no final xor) over type and payload
(`length - 1` bytes from cursor+2) is compared with the trailing byte: on
mismatch the cursor advances by exactly one byte, never by the claimed
length, and on match the frame is emitted and `length + 2` bytes are
consumed — i.e., the cursor-based C loop equals the recursive
specification scan `specScanAddr`. -/
theorem C2_scan_algorithm (sb : List Nat) :
    crsf_stream_parse sb = specScanAddr sb :=
  parse_eq_scanAddr sb

/-! ## Chunking invariance (C8) -/

theorem feed_append_small (sb data : List Nat)
    (h : sb.length + data.length ≤ RXBUF_SIZE) :
    crsf_stream_feed sb data = sb ++ data := by
  rw [feed_eq_drop sb data (by omega), Nat.sub_eq_zero_of_le (by omega), List.drop_zero]

theorem runChunks_eq_scan : ∀ (cs : List (List Nat)) (b : List Nat),
    specScanAddr b = ([], b) → b.length + cs.flatten.length ≤ RXBUF_SIZE →
    runChunks b cs
      = ((specScanAddr (b ++ cs.flatten)).1, (specScanAddr (b ++ cs.flatten)).2) := by
  intro cs
  induction cs with
  | nil =>
    intro b hb _
    simp only [runChunks, List.flatten_nil, List.append_nil, hb]
  | cons c cs ih =>
    intro b hb hlen
    have hflat : c.length + cs.flatten.length = (c :: cs).flatten.length := by
      rw [List.flatten_cons, List.length_append]
    have hfeed : crsf_stream_feed b c = b ++ c :=
      feed_append_small b c (by omega)
    have hres : (specScanAddr (b ++ c)).2 <:+ b ++ c :=
      scanA_suffix (b ++ c).length _ le_rfl
    have hreslen : (specScanAddr (b ++ c)).2.length ≤ b.length + c.length := by
      have := hres.length_le
      rwa [List.length_append] at this
    have hidem : specScanAddr (specScanAddr (b ++ c)).2 = ([], (specScanAddr (b ++ c)).2) :=
      scanA_idem (b ++ c).length _ le_rfl
    simp only [runChunks, hfeed, parse_eq_scanAddr]
    rw [ih (specScanAddr (b ++ c)).2 hidem (by omega), List.flatten_cons,
      ← List.append_assoc, scanA_append (b ++ c).length (b ++ c) cs.flatten le_rfl]

/-- C8: feeding any chunking of a byte sequence datagram-by-datagram —
parsing after every feed, as the session loop does — yields exactly the
same frames and the same residual buffer as feeding the whole sequence as
one block and parsing once, provided the total input fits the 4096-byte
buffer capacity. -/
theorem C8_chunking_invariance (chunks : List (List Nat))
    (h : chunks.flatten.length ≤ RXBUF_SIZE) :
    runChunks [] chunks = runChunks [] [chunks.flatten] := by
  have h1 : runChunks [] chunks
      = ((specScanAddr chunks.flatten).1, (specScanAddr chunks.flatten).2) := by
    have := runChunks_eq_scan chunks [] (by rw [scanA_stop [] (by simp)]) (by simpa using h)
    simpa using this
  have h2 : runChunks [] [chunks.flatten]
      = ((specScanAddr chunks.flatten).1, (specScanAddr chunks.flatten).2) := by
    have := runChunks_eq_scan [chunks.flatten] [] (by rw [scanA_stop [] (by simp)])
      (by simpa using h)
    simpa using this
  rw [h1, h2]

theorem C8_witness :
    ([1, 2, 0xC8, 0x02, 0x16, 0xD3, 7].length ≤ RXBUF_SIZE) ∧
    runChunks [] [[1, 2, 0xC8], [0x02, 0x16], [0xD3, 7]]
      = runChunks [] [[1, 2, 0xC8, 0x02, 0x16, 0xD3, 7]] := by
  refine ⟨by decide, ?_⟩
  have h := C8_chunking_invariance [[1, 2, 0xC8], [0x02, 0x16], [0xD3, 7]] (by decide)
  simpa using h

/-! ## Channel packing round-trip (C3) -/

theorem testBit_div_pow (x k j : Nat) : (x / 2 ^ k).testBit j = x.testBit (k + j) := by
  rw [← Nat.shiftRight_eq_div_pow]
  exact Nat.testBit_shiftRight x

/-- Assembling the next `b` bits above the low `a` bits with a shifted `or`
is the same as taking `a + b` low bits. -/
theorem limb_or (X a b : Nat) :
    (X % 2 ^ a) ||| (X / 2 ^ a % 2 ^ b) <<< a = X % 2 ^ (a + b) := by
  apply Nat.eq_of_testBit_eq
  intro i
  simp only [Nat.testBit_lor, Nat.testBit_shiftLeft, Nat.testBit_mod_two_pow, testBit_div_pow]
  by_cases hia : i < a
  · simp [hia, show i < a + b from by omega, show ¬a ≤ i from by omega]
  · have hidx : a + (i - a) = i := by omega
    by_cases hib : i < a + b
    · simp [hia, show a ≤ i from by omega, hidx, show i - a < b from by omega, hib]
    · simp [hia, show a ≤ i from by omega, hidx, show ¬(i - a < b) from by omega, hib]

theorem mod_pow_div_mod (X s W : Nat) (h : s + 11 ≤ W) :
    X % 2 ^ W / 2 ^ s % 2 ^ 11 = X / 2 ^ s % 2 ^ 11 := by
  rw [show (2:ℕ) ^ W = 2 ^ s * 2 ^ (W - s) from by rw [← pow_add]; congr 1; omega,
    Nat.mod_mul_right_div_self, Nat.mod_mod_of_dvd _ (pow_dvd_pow 2 (by omega))]

/-- Extracting digit `c` of a base-2048 number. -/
theorem ofDigits_extract : ∀ (l : List Nat) (c : Nat), (∀ x ∈ l, x < 2048) →
    c < l.length → Nat.ofDigits 2048 l / 2048 ^ c % 2048 = l.getD c 0 := by
  intro l
  induction l with
  | nil =>
    intro c _ hc
    simp at hc
  | cons d tl ih =>
    intro c hbd hc
    cases c with
    | zero =>
      rw [pow_zero, Nat.div_one, Nat.ofDigits_cons]
      rw [show ((d : ℕ) : ℕ) + 2048 * Nat.ofDigits 2048 tl
          = d + 2048 * Nat.ofDigits 2048 tl from by norm_num]
      rw [Nat.add_mul_mod_self_left,
        Nat.mod_eq_of_lt (hbd d (List.mem_cons_self d tl))]
      rfl
    | succ c =>
      have hdiv : Nat.ofDigits 2048 (d :: tl) / 2048 ^ (c + 1)
          = Nat.ofDigits 2048 tl / 2048 ^ c := by
        rw [Nat.ofDigits_cons, pow_succ, mul_comm (2048 ^ c) 2048,
          ← Nat.div_div_eq_div_mul]
        congr 1
        rw [show ((d : ℕ) : ℕ) + 2048 * Nat.ofDigits 2048 tl
            = d + 2048 * Nat.ofDigits 2048 tl from by norm_num]
        rw [Nat.add_mul_div_left d _ (by norm_num),
          Nat.div_eq_of_lt (hbd d (List.mem_cons_self d tl)), Nat.zero_add]
      rw [hdiv, ih c (fun x hx => hbd x (List.mem_cons_of_mem d hx)) (by simpa using hc)]
      rfl

theorem rc_pack_length (t : List Nat) : (rc_pack t).length = 22 := by
  simp [rc_pack]

theorem rc_pack_getD (t : List Nat) (j : Nat) (h : j < 22) :
    (rc_pack t).getD j 0 = Nat.ofDigits 2048 t / 2 ^ (8 * j) % 256 := by
  simp [rc_pack, List.getD_eq_getElem?_getD, List.getElem?_map, List.getElem?_range h]

theorem unpack_ticks_pack (t : List Nat) (hlen : t.length = 16) (hb : ∀ x ∈ t, x < 2048)
    (c : Nat) (hc : c < 16) :
    crsf_unpack_ticks (rc_pack t) c = t.getD c 0 := by
  simp only [crsf_unpack_ticks, rc_pack_length]
  rw [show (c * 11) >>> 3 = c * 11 / 8 from by rw [Nat.shiftRight_eq_div_pow],
    show c * 11 &&& 7 = c * 11 % 8 from by
      rw [show (7 : ℕ) = 2 ^ 3 - 1 from by norm_num, Nat.and_pow_two_sub_one_eq_mod]]
  set b := c * 11 / 8 with hbdef
  set s := c * 11 % 8 with hsdef
  have hsplit : 8 * b + s = c * 11 := by omega
  have hs8 : s < 8 := by omega
  have hble : b ≤ 20 := by omega
  by_cases h20 : b = 20
  · -- channel 15: only two bytes are loaded
    have hc15 : c = 15 := by omega
    have hs5 : s = 5 := by omega
    rw [if_pos (show b + 1 < 22 from by omega), if_neg (show ¬b + 2 < 22 from by omega)]
    rw [rc_pack_getD t b (by omega), rc_pack_getD t (b + 1) (by omega)]
    rw [show (256 : ℕ) = 2 ^ 8 from by norm_num]
    rw [show 8 * (b + 1) = 8 * b + 8 from by ring, pow_add, ← Nat.div_div_eq_div_mul]
    rw [limb_or (Nat.ofDigits 2048 t / 2 ^ (8 * b)) 8 8]
    rw [Nat.shiftRight_eq_div_pow,
      show (2047 : ℕ) = 2 ^ 11 - 1 from by norm_num, Nat.and_pow_two_sub_one_eq_mod]
    rw [mod_pow_div_mod _ s (8 + 8) (by omega)]
    rw [Nat.div_div_eq_div_mul, ← pow_add, hsplit]
    rw [show (2 : ℕ) ^ (c * 11) = 2048 ^ c from by
        rw [show (2048 : ℕ) = 2 ^ 11 from by norm_num, ← pow_mul, mul_comm],
      show (2 : ℕ) ^ 11 = 2048 from by norm_num]
    exact ofDigits_extract t c hb (by omega)
  · -- channels 0..14: three bytes are loaded
    rw [if_pos (show b + 1 < 22 from by omega), if_pos (show b + 2 < 22 from by omega)]
    rw [rc_pack_getD t b (by omega), rc_pack_getD t (b + 1) (by omega),
      rc_pack_getD t (b + 2) (by omega)]
    rw [show (256 : ℕ) = 2 ^ 8 from by norm_num]
    rw [show 8 * (b + 1) = 8 * b + 8 from by ring, pow_add, ← Nat.div_div_eq_div_mul]
    rw [show 8 * (b + 2) = 8 * b + 16 from by ring, pow_add 2 (8 * b) 16,
      ← Nat.div_div_eq_div_mul]
    rw [limb_or (Nat.ofDigits 2048 t / 2 ^ (8 * b)) 8 8]
    rw [show (2 : ℕ) ^ 16 = 2 ^ (8 + 8) from by norm_num]
    rw [limb_or (Nat.ofDigits 2048 t / 2 ^ (8 * b)) (8 + 8) 8]
    rw [Nat.shiftRight_eq_div_pow,
      show (2047 : ℕ) = 2 ^ 11 - 1 from by norm_num, Nat.and_pow_two_sub_one_eq_mod]
    rw [mod_pow_div_mod _ s (8 + 8 + 8) (by omega)]
    rw [Nat.div_div_eq_div_mul, ← pow_add, hsplit]
    rw [show (2 : ℕ) ^ (c * 11) = 2048 ^ c from by
        rw [show (2048 : ℕ) = 2 ^ 11 from by norm_num, ← pow_mul, mul_comm],
      show (2 : ℕ) ^ 11 = 2048 from by norm_num]
    exact ofDigits_extract t c hb (by omega)

/-- C3: packing any 16 tick values (each in [0, 2047]) into the 22-byte
little-endian 11-bit layout and unpacking with the code's bit extraction
returns exactly the original tick values, and the decoder's output for each
channel is exactly `(ticks - 992) * 5 / 8 + 1500` with C's truncating
division — no clamping is applied at this stage. -/
theorem C3_pack_unpack_roundtrip (t : List Nat) (hlen : t.length = 16)
    (hb : ∀ x ∈ t, x < 2048) :
    (∀ c < 16, crsf_unpack_ticks (rc_pack t) c = t.getD c 0) ∧
    crsf_unpack_rc16_11bit (rc_pack t)
      = some (t.map fun x : Nat => crsf_ticks_to_us x) := by
  have hch : ∀ c < 16, crsf_unpack_ticks (rc_pack t) c = t.getD c 0 :=
    fun c hc => unpack_ticks_pack t hlen hb c hc
  refine ⟨hch, ?_⟩
  unfold crsf_unpack_rc16_11bit
  rw [if_neg (by rw [rc_pack_length]; omega)]
  congr 1
  apply List.ext_getElem
  · simp [hlen]
  · intro n h1 h2
    simp only [List.getElem_map, List.getElem_range]
    have hn : n < 16 := by simpa using h1
    have hnt : n < t.length := by omega
    rw [hch n hn]
    congr 1
    have hgd : t.getD n 0 = t[n] := by
      rw [List.getD_eq_getElem?_getD, List.getElem?_eq_getElem hnt]
      rfl
    rw [hgd]

theorem C3_witness :
    ([0, 1, 2047, 992, 172, 1811, 5, 6, 7, 8, 9, 10, 11, 12, 13, 1500] : List Nat).length = 16 ∧
    crsf_unpack_rc16_11bit (rc_pack [0, 1, 2047, 992, 172, 1811, 5, 6, 7, 8, 9, 10, 11, 12, 13, 1500])
      = some ([0, 1, 2047, 992, 172, 1811, 5, 6, 7, 8, 9, 10, 11, 12, 13, 1500].map
          fun x : Nat => crsf_ticks_to_us x) :=
  ⟨by decide,
    (C3_pack_unpack_roundtrip [0, 1, 2047, 992, 172, 1811, 5, 6, 7, 8, 9, 10, 11, 12, 13, 1500]
      (by decide) (by decide)).2⟩

theorem C4_witness :
    crsf_unpack_rc16_11bit (List.replicate 21 0) = none ∧
    crsf_apply_frame ⟨false, List.replicate 16 0⟩ [0xC8, 3, 0x16, 5, 9]
      = ⟨false, List.replicate 16 0⟩ := by
  exact ⟨C4_unpack_length.1 _ (by decide),
    C4_unpack_length.2 _ _ (by decide) (by decide)⟩

end Waybeam
